import Mathlib

/-!
Verification of the falcon runtime support library (src/lib/runtime.c,
src/lib/builtin.c, src/lib/falcon.h).

Strings are modelled as in `falcon.h`: a byte buffer plus an explicit size.
Bytes are modelled as `Nat` values, the unsigned view that `memcmp` takes of
the buffer contents.  `memcmp` itself is modelled byte by byte; a read beyond
the end of a buffer (undefined behaviour in the C source) is modelled by the
result `none`.
-/

/-- The `ystring` struct of `falcon.h`: an immutable byte buffer `data`
together with its size field.  Bytes are `Nat` (the unsigned-char view that
`memcmp` uses). -/
structure ystring where
  data : List Nat
  size : Nat
deriving DecidableEq

/-- Well-formedness invariant of the data model (spec section 3): `size`
equals the number of valid bytes reachable from `data`. -/
def WFstring (s : ystring) : Prop := s.data.length = s.size

instance (s : ystring) : Decidable (WFstring s) := by
  unfold WFstring; infer_instance

/-- Byte-wise model of C `memcmp(x, y, n)`: walk the two buffers in step for
`n` bytes, stopping at the first difference.  Reaching the end of either
buffer while bytes remain to be compared is an out-of-bounds read, undefined
behaviour in C, modelled by `none`.  The defined results are sign-normalised
to `-1`, `0`, `1`; the C standard only specifies the sign. -/
def memcmpBytes : List Nat → List Nat → Nat → Option Int
  | _, _, 0 => some 0
  | x :: xs, y :: ys, n + 1 =>
      if x < y then some (-1)
      else if y < x then some 1
      else memcmpBytes xs ys n
  | _, _, _ + 1 => none

/-- `runtime_new_string` (runtime.c:33-41): copies the first `size` bytes of
the source into a fresh buffer and sets the size field to `size`. -/
def runtime_new_string (str : List Nat) (size : Nat) : ystring :=
  { data := str.take size, size := size }

/-- `runtime_string_concat` (runtime.c:43-54): fresh buffer holding the first
`a.size` bytes of `a` followed by the first `b.size` bytes of `b`; size field
is `a.size + b.size`. -/
def runtime_string_concat (a b : ystring) : ystring :=
  { data := a.data.take a.size ++ b.data.take b.size, size := a.size + b.size }

/-- `runtime_string_eq` (runtime.c:56-58): `a->size == b->size &&
memcmp(a->data, b->data, a->size) == 0`, with C's short-circuit on the size
test. -/
def runtime_string_eq (a b : ystring) : Option Bool :=
  if a.size = b.size then
    (memcmpBytes a.data b.data a.size).map fun r => decide (r = 0)
  else some false

/-- `runtime_string_ne` (runtime.c:60-62). -/
def runtime_string_ne (a b : ystring) : Option Bool :=
  if a.size = b.size then
    (memcmpBytes a.data b.data a.size).map fun r => decide (r ≠ 0)
  else some true

/-- `runtime_string_lt` (runtime.c:64-66): `memcmp(a->data, b->data, a->size) < 0`. -/
def runtime_string_lt (a b : ystring) : Option Bool :=
  (memcmpBytes a.data b.data a.size).map fun r => decide (r < 0)

/-- `runtime_string_gt` (runtime.c:68-70). -/
def runtime_string_gt (a b : ystring) : Option Bool :=
  (memcmpBytes a.data b.data a.size).map fun r => decide (0 < r)

/-- `runtime_string_le` (runtime.c:72-74). -/
def runtime_string_le (a b : ystring) : Option Bool :=
  (memcmpBytes a.data b.data a.size).map fun r => decide (r ≤ 0)

/-- `runtime_string_ge` (runtime.c:76-78). -/
def runtime_string_ge (a b : ystring) : Option Bool :=
  (memcmpBytes a.data b.data a.size).map fun r => decide (0 ≤ r)

/-- `runtime_string_cmp` (runtime.c:80-82): the raw three-way `memcmp`
result over `a.size` bytes. -/
def runtime_string_cmp (a b : ystring) : Option Int :=
  memcmpBytes a.data b.data a.size

/-- Specification-side byte-wise lexicographic three-way comparison of two
byte sequences (used to state what the ordering operations compute). -/
def lexCmp : List Nat → List Nat → Int
  | [], [] => 0
  | [], _ :: _ => -1
  | _ :: _, [] => 1
  | x :: xs, y :: ys =>
      if x < y then -1
      else if y < x then 1
      else lexCmp xs ys

/-- Observable outcome of a runtime assert: either it returns normally, or it
prints a diagnostic and terminates the process with exit status 1.  The
mismatch constructors record the data the diagnostic line prints. -/
inductive AssertOutcome where
  /-- The assert returns normally. -/
  | ok : AssertOutcome
  /-- `printf("Assertion failed: %d != %d\n", a->size, b->size); exit(1);`
  with the two recorded sizes. -/
  | sizeMismatch : Nat → Nat → AssertOutcome
  /-- `printf("Assertion failed: %c != %c\n", ...); exit(1);` at the recorded
  index, with the two recorded bytes. -/
  | byteMismatch : Nat → Nat → Nat → AssertOutcome
deriving DecidableEq

/-- The byte loop of `rt_assert_string` (builtin.c:77-82), carrying the
current index `i`: terminate with exit status 1 at the first differing byte
pair, return normally when the bytes run out. -/
def assertBytesLoop : Nat → List Nat → List Nat → AssertOutcome
  | i, x :: xs, y :: ys =>
      if x ≠ y then .byteMismatch i x y else assertBytesLoop (i + 1) xs ys
  | _, _, _ => .ok

/-- `rt_assert_string` (builtin.c:72-83): compare the size fields first and on
a mismatch print both sizes and exit with status 1 without touching any byte;
otherwise scan the first `a.size` bytes for the first difference. -/
def rt_assert_string (a b : ystring) : AssertOutcome :=
  if a.size ≠ b.size then .sizeMismatch a.size b.size
  else assertBytesLoop 0 (a.data.take a.size) (b.data.take a.size)

/-- `runtime_new_array` (runtime.c:25-31): `malloc` of storage for `size`
elements, returned uninitialized (`none` marks an uninitialized cell).  The
function returns only the buffer; it has no size field of its own. -/
def runtime_new_array (size : Nat) : List (Option Int) :=
  List.replicate size none

/-- The `yarray` value of `falcon.h`: a data buffer plus a size field. -/
structure yarray where
  data : List (Option Int)
  size : Nat

/-- The spec's Allocate operation (section 4.2): the buffer returned by
`runtime_new_array` presented to generated code as an array value whose size
field is the requested element count (the count is compiler-known; `falcon.h`
declares the `yarray` pairing of buffer and size). -/
def allocate_array (size : Nat) : yarray :=
  { data := runtime_new_array size, size := size }

/-- One bounds-checked read per index of a length-`size` iteration over an
array value; `none` marks an out-of-bounds access. -/
def iterReads (a : yarray) : List (Option (Option Int)) :=
  (List.range a.size).map fun i => a.data.get? i

/-- `runtime_init` (runtime.c:96-98): a placeholder, does nothing. -/
def runtime_init : Unit := ()

/-- `entrypoint` (runtime.c:102-110): run `runtime_init`, transfer control to
the generated code's `main` symbol (modelled as a function whose result is the
value generated `main` computes), and on return call `exit(0)`.  The result is
the process exit status. -/
def entrypoint (_argc : Int) (_argv : List (List Nat)) (main : Unit → Int) : Int :=
  let _ := runtime_init
  let _ := main ()
  0

/-!
Explicit-heap model for the allocation/frame behaviour of the string
operations.  A heap is the list of buffers allocated so far; a string value
is a pointer (index of its buffer in the heap) plus the size field.  `malloc`
appends a fresh buffer at the end of the heap.
-/

/-- The allocator state: every byte buffer allocated so far, in allocation
order.  A `malloc` appends a new buffer; nothing is ever freed (the runtime
has no collector). -/
structure Heap where
  bufs : List (List Nat)

/-- A string value in the heap model: the address of its buffer plus the size
field, as in `falcon.h`. -/
structure ystringRef where
  ptr : Nat
  size : Nat

/-- The bytes of string `s` in heap `h`: the first `s.size` bytes of the
buffer at `s.ptr`. -/
def readBytes (h : Heap) (s : ystringRef) : List Nat :=
  (h.bufs.getD s.ptr []).take s.size

/-- `runtime_string_concat` (runtime.c:43-54) in the heap model: allocate a
fresh buffer holding `a`'s bytes followed by `b`'s bytes, and return the new
heap together with a new string value pointing at the fresh buffer with size
field `a.size + b.size`.  The buffers of `a` and `b` are only read. -/
def runtime_string_concat_heap (h : Heap) (a b : ystringRef) :
    Heap × ystringRef :=
  (⟨h.bufs ++ [readBytes h a ++ readBytes h b]⟩,
   ⟨h.bufs.length, a.size + b.size⟩)

/-- `rt_append` (builtin.c:93-102) in the heap model: allocate a fresh buffer
holding `a`'s bytes with byte `c` appended, and return the new heap together
with a new string value of size `a.size + 1`.  `a`'s buffer is only read. -/
def rt_append_heap (h : Heap) (a : ystringRef) (c : Nat) :
    Heap × ystringRef :=
  (⟨h.bufs ++ [readBytes h a ++ [c]]⟩, ⟨h.bufs.length, a.size + 1⟩)

/-!
Helper lemmas.
-/

/-- When `n` bytes are available in both buffers, `memcmpBytes` is defined and
computes the lexicographic comparison of the first `n` bytes of each. -/
theorem memcmpBytes_eq_lexCmp (n : Nat) :
    ∀ x y : List Nat, n ≤ x.length → n ≤ y.length →
      memcmpBytes x y n = some (lexCmp (x.take n) (y.take n)) := by
  induction n with
  | zero => intro x y _ _; simp [memcmpBytes, lexCmp]
  | succ n ih =>
    intro x y hx hy
    cases x with
    | nil => simp at hx
    | cons a xs =>
      cases y with
      | nil => simp at hy
      | cons b ys =>
        simp only [memcmpBytes, List.take_succ_cons, lexCmp]
        by_cases h1 : a < b
        · simp [h1]
        · by_cases h2 : b < a
          · simp [h1, h2]
          · simp only [if_neg h1, if_neg h2]
            exact ih xs ys (by simpa using hx) (by simpa using hy)

/-- `lexCmp` is reflexive at `0`. -/
theorem lexCmp_self (x : List Nat) : lexCmp x x = 0 := by
  induction x with
  | nil => rfl
  | cons a xs ih => simp [lexCmp, ih]

/-- On equal-length byte sequences, `lexCmp` returns `0` exactly on equal
sequences. -/
theorem lexCmp_eq_zero_iff :
    ∀ x y : List Nat, x.length = y.length → (lexCmp x y = 0 ↔ x = y) := by
  intro x
  induction x with
  | nil =>
    intro y hy
    cases y with
    | nil => simp [lexCmp]
    | cons b ys => simp at hy
  | cons a xs ih =>
    intro y hy
    cases y with
    | nil => simp at hy
    | cons b ys =>
      simp only [lexCmp]
      by_cases h1 : a < b
      · simp [h1, Nat.ne_of_lt h1]
      · by_cases h2 : b < a
        · simp [h1, h2, (Nat.ne_of_lt h2).symm]
        · have hab : a = b := Nat.le_antisymm (Nat.le_of_not_lt h2) (Nat.le_of_not_lt h1)
          subst hab
          simp only [if_neg h1, if_neg h2]
          rw [ih ys (by simpa using hy)]
          simp

/-- The first `s.size` bytes of a well-formed string are all of its bytes. -/
theorem take_size_of_WF (s : ystring) (h : WFstring s) :
    s.data.take s.size = s.data := by
  rw [← h]; exact List.take_length _

/-- On equal-length byte sequences, the assert loop returns normally exactly
when the sequences coincide. -/
theorem assertBytesLoop_ok_iff :
    ∀ (xs ys : List Nat) (k : Nat), xs.length = ys.length →
      (assertBytesLoop k xs ys = .ok ↔ xs = ys) := by
  intro xs
  induction xs with
  | nil =>
    intro ys k hlen
    cases ys with
    | nil => simp [assertBytesLoop]
    | cons b ys => simp at hlen
  | cons x xs ih =>
    intro ys k hlen
    cases ys with
    | nil => simp at hlen
    | cons y ys =>
      by_cases hxy : x = y
      · subst hxy
        have hstep : assertBytesLoop k (x :: xs) (x :: ys) =
            assertBytesLoop (k + 1) xs ys := by
          simp [assertBytesLoop]
        rw [hstep, ih ys (k + 1) (by simpa using hlen)]
        simp
      · simp [assertBytesLoop, hxy]

/-- The assert loop stops at the first differing byte pair and reports the
index (offset by the loop's starting index) and the two bytes. -/
theorem assertBytesLoop_firstDiff :
    ∀ (xs ys : List Nat) (k i : Nat), i < xs.length → i < ys.length →
      (∀ j, j < i → xs.getD j 0 = ys.getD j 0) →
      xs.getD i 0 ≠ ys.getD i 0 →
      assertBytesLoop k xs ys = .byteMismatch (k + i) (xs.getD i 0) (ys.getD i 0) := by
  intro xs
  induction xs with
  | nil => intro ys k i hx; simp at hx
  | cons x xs ih =>
    intro ys k i hx hy hprev hdiff
    cases ys with
    | nil => simp at hy
    | cons y ys =>
      cases i with
      | zero =>
        simp only [List.getD_cons_zero] at hdiff
        simp [assertBytesLoop, hdiff]
      | succ i =>
        have hxy : x = y := by
          have := hprev 0 (Nat.succ_pos i)
          simpa using this
        subst hxy
        simp only [List.getD_cons_succ] at hdiff ⊢
        have hrec := ih ys (k + 1) i (by simpa using hx) (by simpa using hy)
          (fun j hj => by
            have := hprev (j + 1) (Nat.succ_lt_succ hj)
            simpa using this)
          hdiff
        have hk : k + 1 + i = k + (i + 1) := by omega
        have hstep : assertBytesLoop k (x :: xs) (x :: ys) =
            assertBytesLoop (k + 1) xs ys := by
          simp [assertBytesLoop]
        rw [hstep, hrec, hk]

/-- Evaluation of `runtime_string_eq` on well-formed strings: it decides
size-and-bytes equality. -/
theorem runtime_string_eq_eval (a b : ystring) (ha : WFstring a)
    (hb : WFstring b) :
    runtime_string_eq a b = some (decide (a.size = b.size ∧ a.data = b.data)) := by
  unfold runtime_string_eq
  by_cases hs : a.size = b.size
  · have hx : a.size ≤ a.data.length := by rw [ha]
    have hy : a.size ≤ b.data.length := by rw [hb, ← hs]
    have htb : b.data.take a.size = b.data := by
      have : a.size = b.data.length := by rw [hb, hs]
      rw [this]; exact List.take_length _
    rw [if_pos hs, memcmpBytes_eq_lexCmp a.size a.data b.data hx hy,
      take_size_of_WF a ha, htb]
    simp only [Option.map_some']
    congr 1
    rw [decide_eq_decide]
    have hlen : a.data.length = b.data.length := by rw [ha, hb, hs]
    constructor
    · intro h0; exact ⟨hs, (lexCmp_eq_zero_iff a.data b.data hlen).mp h0⟩
    · intro h; exact (lexCmp_eq_zero_iff a.data b.data hlen).mpr h.2
  · rw [if_neg hs]
    simp [hs]

/-!
Claim theorems.
-/

/-- C1: for well-formed strings `a` and `b`, every ordering operation (lt, gt,
le, ge) and the three-way compare are computed as byte-wise lexicographic
comparison over exactly the first `a.size` bytes of both buffers — `a.size` is
the comparison length, irrespective of `b.size` — and whenever `b.size ≥
a.size` and `a`'s bytes are a prefix of `b`'s bytes, the three-way compare
returns 0 and both `le` and `ge` return true, even if `b` is strictly
longer. -/
theorem string_ordering_first_operand_length (a b : ystring) (ha : WFstring a)
    (hb : WFstring b) (hab : a.size ≤ b.size) :
    runtime_string_cmp a b =
      some (lexCmp (a.data.take a.size) (b.data.take a.size)) ∧
    runtime_string_lt a b =
      some (decide (lexCmp (a.data.take a.size) (b.data.take a.size) < 0)) ∧
    runtime_string_gt a b =
      some (decide (0 < lexCmp (a.data.take a.size) (b.data.take a.size))) ∧
    runtime_string_le a b =
      some (decide (lexCmp (a.data.take a.size) (b.data.take a.size) ≤ 0)) ∧
    runtime_string_ge a b =
      some (decide (0 ≤ lexCmp (a.data.take a.size) (b.data.take a.size))) ∧
    (b.data.take a.size = a.data →
      runtime_string_cmp a b = some 0 ∧ runtime_string_le a b = some true ∧
        runtime_string_ge a b = some true) := by
  have hx : a.size ≤ a.data.length := by rw [ha]
  have hy : a.size ≤ b.data.length := by rw [hb]; exact hab
  have hm := memcmpBytes_eq_lexCmp a.size a.data b.data hx hy
  refine ⟨?_, ?_, ?_, ?_, ?_, ?_⟩
  · simpa [runtime_string_cmp] using hm
  · simp [runtime_string_lt, hm]
  · simp [runtime_string_gt, hm]
  · simp [runtime_string_le, hm]
  · simp [runtime_string_ge, hm]
  · intro hpre
    have h0 : lexCmp (a.data.take a.size) (b.data.take a.size) = 0 := by
      rw [take_size_of_WF a ha, hpre]; exact lexCmp_self a.data
    refine ⟨?_, ?_, ?_⟩
    · simp [runtime_string_cmp, hm, h0]
    · simp [runtime_string_le, hm, h0]
    · simp [runtime_string_ge, hm, h0]

/-- Witness for C1 at the prefix pair `"a"`, `"ab"`: the three-way compare
returns 0 and both le and ge return true although `b` is strictly longer. -/
theorem string_ordering_first_operand_length_witness :
    runtime_string_cmp (runtime_new_string [97] 1)
        (runtime_new_string [97, 98] 2) = some 0 ∧
    runtime_string_le (runtime_new_string [97] 1)
        (runtime_new_string [97, 98] 2) = some true ∧
    runtime_string_ge (runtime_new_string [97] 1)
        (runtime_new_string [97, 98] 2) = some true := by
  have h := string_ordering_first_operand_length (runtime_new_string [97] 1)
    (runtime_new_string [97, 98] 2) (by decide) (by decide) (by decide)
  exact h.2.2.2.2.2 (by decide)

/-- C2: for the well-formed pair `a = "xy"` (size 2), `b = "x"` (size 1) with
`b.size < a.size`, every ordering operation and the three-way compare read a
byte of `b` at an index ≥ `b.size`: the out-of-bounds branch of the byte-wise
comparison (result `none`) is reached. -/
theorem comparison_out_of_bounds_reachable :
    (ystring.mk [120] 1).size < (ystring.mk [120, 121] 2).size ∧
    WFstring (ystring.mk [120, 121] 2) ∧ WFstring (ystring.mk [120] 1) ∧
    runtime_string_lt (ystring.mk [120, 121] 2) (ystring.mk [120] 1) = none ∧
    runtime_string_gt (ystring.mk [120, 121] 2) (ystring.mk [120] 1) = none ∧
    runtime_string_le (ystring.mk [120, 121] 2) (ystring.mk [120] 1) = none ∧
    runtime_string_ge (ystring.mk [120, 121] 2) (ystring.mk [120] 1) = none ∧
    runtime_string_cmp (ystring.mk [120, 121] 2) (ystring.mk [120] 1) = none := by
  decide

/-- C3: for well-formed strings, `runtime_string_concat` returns a string of
size `a.size + b.size` whose buffer is exactly `a`'s bytes followed by `b`'s
bytes. -/
theorem concat_spec (a b : ystring) (ha : WFstring a) (hb : WFstring b) :
    (runtime_string_concat a b).size = a.size + b.size ∧
    (runtime_string_concat a b).data = a.data ++ b.data := by
  refine ⟨rfl, ?_⟩
  simp [runtime_string_concat, take_size_of_WF a ha, take_size_of_WF b hb]

/-- Witness for C3: concatenating `Construct("ab", 2)` with
`Construct("c", 1)` yields a string of size 3 with bytes `a`, `b`, `c`
(97, 98, 99). -/
theorem concat_spec_witness :
    (runtime_string_concat (runtime_new_string [97, 98] 2)
        (runtime_new_string [99] 1)).size = 3 ∧
    (runtime_string_concat (runtime_new_string [97, 98] 2)
        (runtime_new_string [99] 1)).data = [97, 98, 99] := by
  have h := concat_spec (runtime_new_string [97, 98] 2)
    (runtime_new_string [99] 1) (by decide) (by decide)
  exact ⟨h.1, h.2.trans (by decide)⟩

/-- C4: for every byte sequence `s`, `Construct(s, len(s))` yields a string
value with size field `len(s)` and a buffer byte-for-byte equal to `s` — no
validation or transformation of the bytes. -/
theorem construct_spec (s : List Nat) :
    (runtime_new_string s s.length).size = s.length ∧
    (runtime_new_string s s.length).data = s :=
  ⟨rfl, List.take_length s⟩

/-- C5: for well-formed strings, `runtime_string_eq` returns true iff the
sizes are equal and the bytes are pairwise equal; it is reflexive and
symmetric, and returns false whenever the sizes differ. -/
theorem string_eq_spec (a b : ystring) (ha : WFstring a) (hb : WFstring b) :
    (runtime_string_eq a b = some true ↔ a.size = b.size ∧ a.data = b.data) ∧
    runtime_string_eq a a = some true ∧
    runtime_string_eq a b = runtime_string_eq b a ∧
    (a.size ≠ b.size → runtime_string_eq a b = some false) := by
  refine ⟨?_, ?_, ?_, ?_⟩
  · rw [runtime_string_eq_eval a b ha hb]; simp
  · rw [runtime_string_eq_eval a a ha ha]; simp
  · rw [runtime_string_eq_eval a b ha hb, runtime_string_eq_eval b a hb ha]
    congr 1
    rw [decide_eq_decide]
    constructor
    · rintro ⟨h1, h2⟩; exact ⟨h1.symm, h2.symm⟩
    · rintro ⟨h1, h2⟩; exact ⟨h1.symm, h2.symm⟩
  · intro hs; rw [runtime_string_eq_eval a b ha hb]; simp [hs]

/-- Witness for C5: equality is false on a size mismatch. -/
theorem string_eq_spec_witness :
    runtime_string_eq (runtime_new_string [97] 1)
      (runtime_new_string [98, 99] 2) = some false := by
  have h := string_eq_spec (runtime_new_string [97] 1)
    (runtime_new_string [98, 99] 2) (by decide) (by decide)
  exact h.2.2.2 (by decide)

/-- C6: on the heap model, concat and append allocate a fresh buffer (at an
address distinct from every existing buffer, in particular from the operands')
and a new string value; every buffer that existed before the call is
unchanged, so after the call the operands still hold exactly the same size
and the same bytes as before. -/
theorem concat_append_frame (h : Heap) (a b : ystringRef) (c : Nat)
    (ha : a.ptr < h.bufs.length) (hb : b.ptr < h.bufs.length) :
    (runtime_string_concat_heap h a b).2.ptr = h.bufs.length ∧
    a.ptr ≠ (runtime_string_concat_heap h a b).2.ptr ∧
    b.ptr ≠ (runtime_string_concat_heap h a b).2.ptr ∧
    (runtime_string_concat_heap h a b).2.size = a.size + b.size ∧
    (∀ i, i < h.bufs.length →
      (runtime_string_concat_heap h a b).1.bufs.getD i [] = h.bufs.getD i []) ∧
    readBytes (runtime_string_concat_heap h a b).1 a = readBytes h a ∧
    readBytes (runtime_string_concat_heap h a b).1 b = readBytes h b ∧
    (rt_append_heap h a c).2.ptr = h.bufs.length ∧
    a.ptr ≠ (rt_append_heap h a c).2.ptr ∧
    (∀ i, i < h.bufs.length →
      (rt_append_heap h a c).1.bufs.getD i [] = h.bufs.getD i []) ∧
    readBytes (rt_append_heap h a c).1 a = readBytes h a := by
  refine ⟨rfl, Nat.ne_of_lt ha, Nat.ne_of_lt hb, rfl, ?_, ?_, ?_, rfl,
    Nat.ne_of_lt ha, ?_, ?_⟩
  · intro i hi
    exact List.getD_append _ _ _ _ hi
  · show ((h.bufs ++ [readBytes h a ++ readBytes h b]).getD a.ptr []).take a.size =
      (h.bufs.getD a.ptr []).take a.size
    rw [List.getD_append _ _ _ _ ha]
  · show ((h.bufs ++ [readBytes h a ++ readBytes h b]).getD b.ptr []).take b.size =
      (h.bufs.getD b.ptr []).take b.size
    rw [List.getD_append _ _ _ _ hb]
  · intro i hi
    exact List.getD_append _ _ _ _ hi
  · show ((h.bufs ++ [readBytes h a ++ [c]]).getD a.ptr []).take a.size =
      (h.bufs.getD a.ptr []).take a.size
    rw [List.getD_append _ _ _ _ ha]

/-- Witness for C6 on a one-buffer heap holding `"hi"`: the operand reads the
same bytes after concat and after append, and the result points at the fresh
buffer address 1. -/
theorem concat_append_frame_witness :
    readBytes (runtime_string_concat_heap ⟨[[104, 105]]⟩ ⟨0, 2⟩ ⟨0, 2⟩).1 ⟨0, 2⟩ =
      readBytes ⟨[[104, 105]]⟩ ⟨0, 2⟩ ∧
    (runtime_string_concat_heap ⟨[[104, 105]]⟩ ⟨0, 2⟩ ⟨0, 2⟩).2.ptr = 1 ∧
    readBytes (rt_append_heap ⟨[[104, 105]]⟩ ⟨0, 2⟩ 33).1 ⟨0, 2⟩ =
      readBytes ⟨[[104, 105]]⟩ ⟨0, 2⟩ := by
  have h := concat_append_frame ⟨[[104, 105]]⟩ ⟨0, 2⟩ ⟨0, 2⟩ 33
    (by decide) (by decide)
  exact ⟨h.2.2.2.2.2.1, h.1, h.2.2.2.2.2.2.2.2.2.2⟩

/-- C7: for well-formed strings, `rt_assert_string` returns normally iff the
two strings have equal sizes and equal bytes; the sizes are checked first and
on a mismatch it exits with status 1 printing both sizes, without comparing
any byte; otherwise it exits with status 1 at the first differing byte index,
reporting that byte pair. -/
theorem assert_string_spec (a b : ystring) (ha : WFstring a)
    (hb : WFstring b) :
    (rt_assert_string a b = .ok ↔ a.size = b.size ∧ a.data = b.data) ∧
    (a.size ≠ b.size → rt_assert_string a b = .sizeMismatch a.size b.size) ∧
    (∀ i, a.size = b.size → i < a.size →
      (∀ j, j < i → a.data.getD j 0 = b.data.getD j 0) →
      a.data.getD i 0 ≠ b.data.getD i 0 →
      rt_assert_string a b = .byteMismatch i (a.data.getD i 0) (b.data.getD i 0)) := by
  refine ⟨?_, ?_, ?_⟩
  · by_cases hs : a.size = b.size
    · have htb : b.data.take a.size = b.data := by
        have hsz : a.size = b.data.length := by rw [hb, hs]
        rw [hsz]; exact List.take_length _
      unfold rt_assert_string
      rw [if_neg (by simp [hs]), take_size_of_WF a ha, htb,
        assertBytesLoop_ok_iff a.data b.data 0 (by rw [ha, hb, hs])]
      exact ⟨fun hd => ⟨hs, hd⟩, fun hd => hd.2⟩
    · unfold rt_assert_string
      rw [if_pos hs]
      exact ⟨fun hcon => AssertOutcome.noConfusion hcon,
        fun hd => absurd hd.1 hs⟩
  · intro hs
    unfold rt_assert_string
    rw [if_pos hs]
  · intro i hs hi hprev hdiff
    have htb : b.data.take a.size = b.data := by
      have hsz : a.size = b.data.length := by rw [hb, hs]
      rw [hsz]; exact List.take_length _
    unfold rt_assert_string
    rw [if_neg (by simp [hs]), take_size_of_WF a ha, htb]
    have hres := assertBytesLoop_firstDiff a.data b.data 0 i
      (by rw [ha]; exact hi) (by rw [hb, ← hs]; exact hi) hprev hdiff
    simpa using hres

/-- Witness for C7 at the spec scenario: `Construct("x", 1)` against
`Construct("xy", 2)` exits with status 1 printing the sizes 1 and 2. -/
theorem assert_string_spec_witness :
    rt_assert_string (runtime_new_string [120] 1)
      (runtime_new_string [120, 121] 2) = .sizeMismatch 1 2 := by
  have h := assert_string_spec (runtime_new_string [120] 1)
    (runtime_new_string [120, 121] 2) (by decide) (by decide)
  exact h.2.1 (by decide)

/-- C8: the entry shim terminates the process with exit status 0 on return
from the generated code, for every value the generated `main` computes and
every set of process arguments. -/
theorem entrypoint_exit_status_zero :
    ∀ (argc : Int) (argv : List (List Nat)) (main : Unit → Int),
      entrypoint argc argv main = 0 :=
  fun _ _ _ => rfl

/-- C9: for every element count `n`, the Allocate operation yields an array
value whose size field is `n` and whose buffer holds `n` elements, and a
zero-length iteration over `Allocate(0)` performs no access at all. -/
theorem allocate_array_spec :
    ∀ n : Nat, (allocate_array n).size = n ∧
      (allocate_array n).data.length = n ∧
      iterReads (allocate_array 0) = [] := by
  intro n
  refine ⟨rfl, ?_, rfl⟩
  simp [allocate_array, runtime_new_array]
